import Mathlib

/-!
Verification of the date-validation scripts of the VNEXSUS repository
(`scripts/validate-dates.py`, `scripts/quick-validate-28.py`,
`scripts/deep-ocr-error-analysis.py`).

The Python code is shallowly embedded: strings are Lean `String`s
(lists of Unicode characters), Python `set`s of date strings become
`Finset String`, Python floats become `ℚ`, fallible Python code
(statements that may raise) returns `Except String _`, and the two
date regexes are modelled by explicit scanning functions whose
equivalence with the regex semantics is argued where they are defined.

Modelling notes, applying to the whole file:
* `\d` of Python `re` is modelled as the ASCII digits `0`-`9`; Python's
  `\d` additionally matches non-ASCII Unicode decimal digits, which do
  not occur in the Korean/ASCII medical corpus this repository
  processes.  The same restriction applies to `\s` (modelled as the six
  ASCII whitespace characters) and to `int()` / `str.isspace`.
* Python's `datetime` values are totally ordered by their time-line
  instant; we model an instant as a rational number of days on the
  proleptic-Gregorian ordinal scale used by `datetime.toordinal`, so a
  date parsed by `strptime` (midnight) is exactly its integer ordinal.
-/

namespace VNexsus

/-- ASCII decimal digit, the model of Python's `\d` (see header note). -/
def isDig (c : Char) : Bool := 48 ≤ c.toNat && c.toNat ≤ 57

/-- Numeric value of an ASCII digit character. -/
def digitVal (c : Char) : Nat := c.toNat - 48

/-- The ASCII digit character of a value `< 10`. -/
def digitChar (n : Nat) : Char := Char.ofNat (48 + n)

/-- The six ASCII whitespace characters: the model of Python's `\s`
and of the whitespace stripped by `int()`. -/
def isPySpace (c : Char) : Bool :=
  c.toNat = 32 || c.toNat = 9 || c.toNat = 10 || c.toNat = 11 || c.toNat = 13 || c.toNat = 12

/-- `needle` starts `hay` (helper for the substring test). -/
def leadsWith : List Char → List Char → Bool
  | [], _ => true
  | _ :: _, [] => false
  | a :: as, b :: bs => a == b && leadsWith as bs

/-- Python's substring containment `needle in hay`. -/
def occursIn (needle : List Char) : List Char → Bool
  | [] => needle.isEmpty
  | c :: rest => leadsWith needle (c :: rest) || occursIn needle rest

/-- Decimal digits of a natural number, most significant first
(fuel-based so that the kernel can evaluate it; `natDigits` below
supplies sufficient fuel). -/
def natDigitsAux : Nat → Nat → List Char
  | 0, _ => []
  | fuel + 1, n =>
    if n < 10 then [digitChar n]
    else natDigitsAux fuel (n / 10) ++ [digitChar (n % 10)]

/-- Decimal rendering of a natural number, the model of Python's
`str`/f-string formatting of a non-negative `int`. -/
def natDigits (n : Nat) : List Char := natDigitsAux (n + 1) n

/-- Value of a list of decimal digit characters, most significant
first (underscores and signs are handled by `pyInt?`, not here). -/
def digitsVal (l : List Char) : Nat := l.foldl (fun a c => 10 * a + digitVal c) 0

/-- Python `str.zfill(w)`: left-pad with `0` to width `w`, keeping a
leading sign in place. -/
def zfill (w : Nat) (l : List Char) : List Char :=
  if l ≠ [] ∧ (l.headI = '+' ∨ l.headI = '-') then
    l.headI :: (List.replicate (w - l.length) '0' ++ l.tail)
  else
    List.replicate (w - l.length) '0' ++ l

/-- Python `str.split(sep)` for a one-character separator: splits at
every occurrence, keeping empty pieces (`"".split('-') == [""]`). -/
def pySplit (sep : Char) : List Char → List (List Char)
  | [] => [[]]
  | x :: xs =>
    let r := pySplit sep xs
    if x = sep then [] :: r else (x :: r.headI) :: r.tail

/-- Tail of a digit group as accepted by Python `int()`: digits with
single interior underscores (an underscore must be followed by a
digit). -/
def digitGroupTail : List Char → Bool
  | [] => true
  | c :: r =>
    if c = '_' then
      match r with
      | c2 :: r2 => isDig c2 && digitGroupTail r2
      | [] => false
    else isDig c && digitGroupTail r

/-- A full digit group for Python `int()`: non-empty, starts with a
digit, underscores only between digits. -/
def isDigitGroup : List Char → Bool
  | [] => false
  | c :: r => isDig c && digitGroupTail r

/-- Strip leading and trailing Python whitespace, as `int()` does. -/
def stripPy (l : List Char) : List Char :=
  ((l.dropWhile isPySpace).reverse.dropWhile isPySpace).reverse

/-- Value of a digit group, ignoring underscores. -/
def intOfDigits (l : List Char) : Int :=
  (digitsVal (l.filter fun c => c != '_') : Nat)

/-- The sign-and-digit-group stage of Python `int()`, applied to the
whitespace-stripped input. -/
def pyIntCore : List Char → Option Int
  | [] => none
  | c :: rest =>
    if c = '+' then
      if isDigitGroup rest then some (intOfDigits rest) else none
    else if c = '-' then
      if isDigitGroup rest then some (-(intOfDigits rest)) else none
    else
      if isDigitGroup (c :: rest) then some (intOfDigits (c :: rest)) else none

/-- Model of Python `int(s)` on a string: `some` the value when the
call succeeds, `none` when it raises `ValueError`.  (ASCII digits and
whitespace only, see the header note.) -/
def pyInt? (l : List Char) : Option Int :=
  pyIntCore (stripPy l)

/-- Python `str(i)` for an `int` value. -/
def intDigits (i : Int) : List Char :=
  if i < 0 then '-' :: natDigits i.natAbs else natDigits i.natAbs

/-! ## The two date regexes

`extract_dates` (identical in `validate-dates.py`,
`quick-validate-28.py` and `deep-ocr-error-analysis.py`) scans its
input with

  pattern 1: `(\d{4})[-./](\d{1,2})[-./](\d{1,2})`
  pattern 2: `(\d{4})\s*년\s*(\d{1,2})\s*월\s*(\d{1,2})\s*일`

via `re.finditer`.  We model each pattern by an anchored matcher
(`Option` of captured groups and remaining input) and `re.finditer` by
a left-to-right scan (`scan`).

The matchers use greedy, non-backtracking choices.  This is equivalent
to the backtracking regex semantics for these two patterns: in
pattern 1 every `\d{1,2}` group is followed by `[-./]` or by the end
of the pattern, and a digit is never one of `-./`, so retrying the
one-digit alternative after the two-digit alternative succeeded
locally can never make the rest of the pattern match; in pattern 2
every `\d{1,2}` is followed by `\s*` and a literal Korean character,
and a digit is neither whitespace nor that literal, with the same
consequence, and likewise shrinking a greedy `\s*` only exposes a
whitespace character to a non-whitespace literal. -/

/-- The separator class `[-./]` of pattern 1. -/
def sepChar (c : Char) : Bool := c = '-' || c = '.' || c = '/'

/-- Greedy `(\d{1,2})`: one or two digits, two preferred. -/
def digits12 : List Char → Option (List Char × List Char)
  | [] => none
  | [a] => if isDig a then some ([a], []) else none
  | a :: b :: r =>
    if isDig a then
      if isDig b then some ([a, b], r) else some ([a], b :: r)
    else none

/-- Consume one expected literal character. -/
def expectChar (c : Char) : List Char → Option (List Char)
  | x :: r => if x = c then some r else none
  | [] => none

/-- Consume one separator character `[-./]`. -/
def expectSep : List Char → Option (Char × List Char)
  | x :: r => if sepChar x then some (x, r) else none
  | [] => none

/-- Anchored match of pattern 1, returning the three captured groups
and the input following the match. -/
def p1MatchHere (cs : List Char) : Option ((List Char × List Char × List Char) × List Char) :=
  match cs with
  | c1 :: c2 :: c3 :: c4 :: c5 :: rest =>
    if isDig c1 && isDig c2 && isDig c3 && isDig c4 && sepChar c5 then
      (digits12 rest).bind fun g2p =>
        (expectSep g2p.2).bind fun s2 =>
          (digits12 s2.2).map fun g3p => (([c1, c2, c3, c4], g2p.1, g3p.1), g3p.2)
    else none
  | _ => none

/-- Anchored match of pattern 2 (the Korean `년/월/일` form). -/
def p2MatchHere (cs : List Char) : Option ((List Char × List Char × List Char) × List Char) :=
  match cs with
  | c1 :: c2 :: c3 :: c4 :: rest =>
    if isDig c1 && isDig c2 && isDig c3 && isDig c4 then
      (expectChar '년' (rest.dropWhile isPySpace)).bind fun r2 =>
        (digits12 (r2.dropWhile isPySpace)).bind fun g2p =>
          (expectChar '월' (g2p.2.dropWhile isPySpace)).bind fun r6 =>
            (digits12 (r6.dropWhile isPySpace)).bind fun g3p =>
              (expectChar '일' (g3p.2.dropWhile isPySpace)).map fun r10 =>
                (([c1, c2, c3, c4], g2p.1, g3p.1), r10)
    else none
  | _ => none

/-- `re.finditer`: non-overlapping left-to-right matches; on a match
scanning resumes after it, otherwise it advances one character.  The
fuel argument only serves termination: both matchers consume at least
five characters on success, so `length + 1` fuel (see `scan`) is never
exhausted. -/
def scanAux (mh : List Char → Option ((List Char × List Char × List Char) × List Char)) :
    Nat → List Char → List (List Char × List Char × List Char)
  | 0, _ => []
  | fuel + 1, cs =>
    (mh cs).elim
      (match cs with
       | [] => []
       | _ :: cs2 => scanAux mh fuel cs2)
      fun p => p.1 :: scanAux mh fuel p.2

/-- All matches of a pattern in a text, in order. -/
def scan (mh : List Char → Option ((List Char × List Char × List Char) × List Char))
    (cs : List Char) : List (List Char × List Char × List Char) :=
  scanAux mh (cs.length + 1) cs

/-- `normalized = f"{year}-{month.zfill(2)}-{day.zfill(2)}"` applied to
the captured groups of a match. -/
def normString (g : List Char × List Char × List Char) : String :=
  ⟨g.1 ++ '-' :: (zfill 2 g.2.1 ++ '-' :: zfill 2 g.2.2)⟩

/-- The normalized dates produced by both patterns, in scan order
(pattern 1 first, as in the Python loop over `patterns`). -/
def extractDatesList (text : String) : List String :=
  ((scan p1MatchHere text.data).map normString) ++ ((scan p2MatchHere text.data).map normString)

/-- `extract_dates`: the set of normalized dates found in a text.
Identical in `validate-dates.py` (`extract_dates`),
`quick-validate-28.py` and `deep-ocr-error-analysis.py`
(`extract_dates_from_text`). -/
def extract_dates (text : String) : Finset String :=
  (extractDatesList text).toFinset

/-! ## `quick-validate-28.py` -/

/-- `days_in_month` of `is_impossible_date` (note: February is 29;
a 29 February in a non-leap year is rejected by the explicit
leap-year test that follows). -/
def days_in_month : List Int := [31, 29, 31, 30, 31, 30, 31, 31, 30, 31, 30, 31]

/-- The Gregorian leap-year test of `is_impossible_date`
(`year % 4 == 0 and (year % 100 != 0 or year % 400 == 0)`);
Lean's `Int.emod` agrees with Python `%` for positive moduli. -/
def isLeapInt (y : Int) : Bool :=
  y % 4 = 0 && (y % 100 != 0 || y % 400 = 0)

/-- The range checks of `is_impossible_date` after the three
components have been parsed. -/
def is_impossible_core (year month day : Int) : Bool :=
  if month < 1 || month > 12 then true
  else if day < 1 || day > days_in_month.getD (month - 1).toNat 0 then true
  else if month = 2 && day = 29 && !isLeapInt year then true
  else false

/-- `year, month, day = map(int, date_str.split('-'))`: `none` models
the `ValueError` of a wrong component count or a non-numeric
component. -/
def parse3Ints (s : String) : Option (Int × Int × Int) :=
  match pySplit '-' s.data with
  | [ys, ms, ds] =>
    (pyInt? ys).bind fun y => (pyInt? ms).bind fun m => (pyInt? ds).map fun d => (y, m, d)
  | _ => none

/-- `is_impossible_date`: split on `-`, convert the three components
with `int` and apply the calendar checks; any exception (wrong number
of components, non-numeric component) is caught and yields `True`. -/
def is_impossible_date (s : String) : Bool :=
  (parse3Ints s).elim true fun t => is_impossible_core t.1 t.2.1 t.2.2

/-! ### `datetime.strptime(s, "%Y-%m-%d")`

CPython's `_strptime` compiles the format to the regex
`(\d\d\d\d)-(1[0-2]|0[1-9]|[1-9])-(3[01]|[12]\d|0[1-9]|[1-9])`,
matches it at the start of the string, raises if the regex fails or if
unconverted data remains, and then builds a `datetime`, which raises
unless `1 <= year` and the day exists in the (real, leap-aware) month.

The alternations are modelled by ordered non-backtracking choice;
this is faithful because each group is followed by a literal `-` or by
the end of the pattern: when a longer alternative succeeds locally but
the following literal fails, every shorter alternative leaves a digit
in front of that literal, which fails as well — and the day group is
last, so any locally successful day alternative already completes the
regex match (a remaining tail then raises "unconverted data remains",
it does not reinvoke backtracking). -/

/-- Month alternation `1[0-2]|0[1-9]|[1-9]` as ordered choice
(on `1x` with `x ∉ [0-2]` the single-digit alternative `[1-9]`
matches the `1`). -/
def monthMatch (cs : List Char) : Option (Nat × List Char) :=
  match cs with
  | c1 :: c2 :: rest =>
    if c1 = '1' then
      if 48 ≤ c2.toNat ∧ c2.toNat ≤ 50 then some (10 + (c2.toNat - 48), rest)
      else some (1, c2 :: rest)
    else if c1 = '0' then
      if 49 ≤ c2.toNat ∧ c2.toNat ≤ 57 then some (c2.toNat - 48, rest) else none
    else if 49 ≤ c1.toNat ∧ c1.toNat ≤ 57 then some (c1.toNat - 48, c2 :: rest)
    else none
  | [c] => if 49 ≤ c.toNat ∧ c.toNat ≤ 57 then some (c.toNat - 48, []) else none
  | [] => none

/-- Day alternation `3[01]|[12]\d|0[1-9]|[1-9]` as ordered choice. -/
def dayMatch (cs : List Char) : Option (Nat × List Char) :=
  match cs with
  | c1 :: c2 :: rest =>
    if c1 = '3' then
      if c2.toNat = 48 ∨ c2.toNat = 49 then some (30 + (c2.toNat - 48), rest)
      else some (3, c2 :: rest)
    else if c1 = '1' ∨ c1 = '2' then
      if isDig c2 then some (10 * (c1.toNat - 48) + (c2.toNat - 48), rest)
      else some (c1.toNat - 48, c2 :: rest)
    else if c1 = '0' then
      if 49 ≤ c2.toNat ∧ c2.toNat ≤ 57 then some (c2.toNat - 48, rest) else none
    else if 49 ≤ c1.toNat ∧ c1.toNat ≤ 57 then some (c1.toNat - 48, c2 :: rest)
    else none
  | [c] => if 49 ≤ c.toNat ∧ c.toNat ≤ 57 then some (c.toNat - 48, []) else none
  | [] => none

/-- The full `%Y-%m-%d` regex match at the start of the input:
year value, month value, day value, and the unconsumed tail. -/
def matchYMD (cs : List Char) : Option (Nat × Nat × Nat × List Char) :=
  match cs with
  | c1 :: c2 :: c3 :: c4 :: c5 :: rest =>
    if isDig c1 && isDig c2 && isDig c3 && isDig c4 && (c5 == '-') then
      (monthMatch rest).bind fun mp =>
        (expectChar '-' mp.2).bind fun r2 =>
          (dayMatch r2).map fun dp =>
            (digitsVal [c1, c2, c3, c4], mp.1, dp.1, dp.2)
    else none
  | _ => none

/-- Number of days in a real (proleptic Gregorian) month, as enforced
by `datetime`'s constructor. -/
def daysInMonth (y m : Nat) : Nat :=
  if m = 2 then (if isLeapInt (y : Int) then 29 else 28)
  else [31, 28, 31, 30, 31, 30, 31, 31, 30, 31, 30, 31].getD (m - 1) 0

/-- `datetime.strptime(s, "%Y-%m-%d")`: `some (y, m, d)` on success,
`none` when a `ValueError` is raised (regex failure, unconverted
data, year 0, or a day that does not exist in the month). -/
def strptimeYMD (s : String) : Option (Nat × Nat × Nat) :=
  (matchYMD s.data).bind fun q =>
    if q.2.2.2 = [] then
      if 1 ≤ q.1 ∧ q.2.2.1 ≤ daysInMonth q.1 q.2.1 then some (q.1, q.2.1, q.2.2.1)
      else none
    else none

/-- Days before month `m` in year `y` (`datetime`'s `_days_before_month`). -/
def daysBeforeMonth (y m : Nat) : Int :=
  ([0, 31, 59, 90, 120, 151, 181, 212, 243, 273, 304, 334].getD (m - 1) 0 : Int) +
    (if 2 < m ∧ isLeapInt (y : Int) then 1 else 0)

/-- `datetime.toordinal` for a calendar date (only evaluated on years
`≥ 1`, where Lean's `Int` division agrees with Python's floor
division). -/
def dateOrdinal (y m d : Nat) : Int :=
  365 * ((y : Int) - 1) + ((y : Int) - 1) / 4 - ((y : Int) - 1) / 100 +
    ((y : Int) - 1) / 400 + daysBeforeMonth y m + d

/-- `is_future_date(date_str, tolerance_days)`: parse with `strptime`
and compare with `datetime.now() + timedelta(days=tolerance_days)`;
any parse failure is caught and yields `False`.  `now` is the current
instant on the rational ordinal scale (see the header note). -/
def is_future_date (now : ℚ) (tolerance_days : Int) (s : String) : Bool :=
  (strptimeYMD s).elim false fun t =>
    decide ((dateOrdinal t.1 t.2.1 t.2.2 : ℚ) > now + (tolerance_days : ℚ))

/-- The `future` sample of a `QuickValidationResult` (line 166):
`[d for d in missing if is_future_date(d) and not is_impossible_date(d)]`. -/
def future_dates_sample (now : ℚ) (tolerance_days : Int) (missing : List String) : List String :=
  missing.filter fun d => is_future_date now tolerance_days d && !is_impossible_date d

/-- `classify_grade`: absolute grading of an accuracy percentage. -/
def classify_grade (accuracy : ℚ) : String :=
  if accuracy ≥ 80 then "상"
  else if accuracy ≥ 60 then "중"
  else "하"

/-- The accuracy of `quick-validate-28.py` (line 161):
`(matched / baseline * 100) if baseline_count > 0 else 100.0`,
with `matched = baseline ∩ ocr`. -/
def quick_accuracy (baseline ocr : Finset String) : ℚ :=
  if 0 < baseline.card then ((baseline ∩ ocr).card : ℚ) / (baseline.card : ℚ) * 100
  else 100

/-! ## `validate-dates.py` (`analyze_case`, lines 54-63) -/

/-- The three comparison sets computed by `analyze_case`. -/
structure CompareResult where
  matched : Finset String
  missing : Finset String
  extra : Finset String
  deriving DecidableEq

/-- Lines 54-57: `missing = baseline - generated`,
`extra = generated - baseline`, `matched = baseline & generated`. -/
def analyze_case_compare (baseline generated : Finset String) : CompareResult :=
  { matched := baseline ∩ generated
    missing := baseline \ generated
    extra := generated \ baseline }

/-- Lines 59-63: the coverage percentage, with the degenerate
empty-baseline cases. -/
def coverage_percent (baseline generated : Finset String) : ℚ :=
  if baseline.card = 0 then (if generated.card = 0 then 100 else 0)
  else ((analyze_case_compare baseline generated).matched.card : ℚ) / (baseline.card : ℚ) * 100

/-! ## `deep-ocr-error-analysis.py` -/

/-- An OCR text block (floats become `ℚ`). -/
structure Block where
  page : Int
  text : String
  x : ℚ
  y : ℚ
  width : ℚ
  height : ℚ
  confidence : ℚ
  deriving DecidableEq

/-- The fields of an `ErrorAnalysis` that carry data.  The source's
remaining fields (`surrounding_text`, `coordinates`,
`spatial_context`, `reasoning`) are human-readable presentation
strings assembled from the same inputs and are not modelled. -/
structure ErrorAnalysis where
  error_date : String
  error_type : String
  found_in_blocks : Bool
  block_index : Int
  medical_keywords : Option (List String)
  deriving DecidableEq

deriving instance DecidableEq for Except

/-- The keyword list of `extract_medical_keywords`. -/
def medical_keyword_list : List String :=
  ["진단", "검사", "수술", "처방", "투약", "치료", "입원", "퇴원",
   "외래", "응급", "수혈", "주사", "촬영", "판독",
   "내과", "외과", "정형외과", "신경외과", "산부인과", "소아과", "이비인후과",
   "CT", "MRI", "X-ray", "초음파", "혈액검사", "소변검사",
   "처방전", "진료기록", "소견서", "의견서", "진단서",
   "초진", "재진", "내원", "방문", "경과", "추적"]

/-- `extract_medical_keywords`: the keywords occurring in a text, in
list order. -/
def extract_medical_keywords (text : String) : List String :=
  medical_keyword_list.filter fun k => occursIn k.data text.data

/-- `get_surrounding_blocks(blocks, index, window)`:
`[(i, blocks[i]) for i in range(max(0, index-window), min(len, index+window+1))]`. -/
def get_surrounding_blocks (blocks : List Block) (index window : Nat) : List (Nat × Block) :=
  let start := index - window
  let stop := min blocks.length (index + window + 1)
  (List.range' start (stop - start)).filterMap fun i => (blocks.get? i).map fun b => (i, b)

/-- The six alternative renderings searched by the second loop of
`find_block_with_date`, built from the split components and their
`int` values. -/
def fbwd_patterns (ys ms ds : List Char) (yi mi di : Int) : List (List Char) :=
  [ys ++ '-' :: ms ++ '-' :: ds,
   ys ++ '.' :: ms ++ '.' :: ds,
   ys ++ '/' :: ms ++ '/' :: ds,
   ys ++ '년' :: ms ++ '월' :: ds ++ ['일'],
   ys ++ '년' :: ' ' :: ms ++ '월' :: ' ' :: ds ++ ['일'],
   intDigits yi ++ '.' :: intDigits mi ++ '.' :: intDigits di]

/-- The pattern search of the fallback branch: convert the split
components with `int` (the sixth rendering needs the values; a failure
raises `ValueError`), then scan the blocks for any of the six
renderings, block-major as the source's nested loops do. -/
def fbwd_search (blocks : List Block) (ys ms ds : List Char) :
    Except String (Int × Option Block) :=
  ((pyInt? ys).bind fun yi => (pyInt? ms).bind fun mi => (pyInt? ds).map fun di =>
      fbwd_patterns ys ms ds yi mi di).elim
    (.error "ValueError: int()")
    fun patterns =>
      (blocks.findIdx? fun b => patterns.any fun p => occursIn p b.text.data).elim
        (.ok (-1, none))
        fun i => .ok ((i : Int), blocks.get? i)

/-- The fallback branch of `find_block_with_date`: unpack the split
(raising on a component count other than three), then run the pattern
search. -/
def fbwd_fallback (blocks : List Block) (date_str : String) :
    Except String (Int × Option Block) :=
  match pySplit '-' date_str.data with
  | [ys, ms, ds] => fbwd_search blocks ys ms ds
  | _ => .error "ValueError: unpacking split"

/-- `find_block_with_date(blocks, date_str)` (lines 71-94): first a
literal substring search; failing that, the `fbwd_fallback` search
over six alternative renderings. -/
def find_block_with_date (blocks : List Block) (date_str : String) :
    Except String (Int × Option Block) :=
  (blocks.findIdx? fun b => occursIn date_str.data b.text.data).elim
    (fbwd_fallback blocks date_str)
    fun i => .ok ((i : Int), blocks.get? i)

/-- Python `list[i]` as `Except` (raises `IndexError` when out of range). -/
def getE (l : List (List Char)) (i : Nat) : Except String (List Char) :=
  (l.get? i).elim (.error "IndexError") .ok

/-- Python `int(s)` as `Except`. -/
def pyIntE (l : List Char) : Except String Int :=
  (pyInt? l).elim (.error "ValueError") .ok

/-- The body of `classify_error_type` after `find_block_with_date`
returned `block_idx`: the early `baseline_error` return (lines
203-210), or the context/keyword gathering, component parsing and the
error-type decision chain (lines 212-283).
`find_spatially_close_blocks` (line 217) is computed by the source but
its result is never used, and `analyze_date_sequence` (line 220) feeds
only the `reasoning` presentation string; neither can raise, so
neither affects the modelled fields.  In the final branch the future
and the past case assign the same `error_type` (`"잘못인식"`),
differing only in `reasoning`. -/
def classify_with_index (now : ℚ) (blocks : List Block) (error_date : String)
    (block_idx : Int) : Except String ErrorAnalysis :=
  if block_idx = -1 then
    .ok { error_date := error_date, error_type := "baseline_error",
          found_in_blocks := false, block_index := -1, medical_keywords := none }
  else
    let surrounding := get_surrounding_blocks blocks block_idx.toNat 5
    let context_text := String.intercalate " " (surrounding.map fun p => p.2.text)
    let medical_keywords := extract_medical_keywords context_text
    let parts := pySplit '-' error_date.data
    Except.bind (getE parts 0) fun p0 =>
    Except.bind (pyIntE p0) fun year =>
    Except.bind (getE parts 1) fun p1 =>
    Except.bind (pyIntE p1) fun month =>
    Except.bind (getE parts 2) fun p2 =>
    Except.bind (pyIntE p2) fun day =>
    let error_type :=
      if month < 1 ∨ month > 12 then "인식오류"
      else if day < 1 ∨ day > 31 then "인식오류"
      else if year > 2026 ∨ year < 1950 then "인식오류"
      else
        (strptimeYMD error_date).elim "숫자배열오인" fun t =>
          if (dateOrdinal t.1 t.2.1 t.2.2 : ℚ) > now then "잘못인식" else "잘못인식"
    .ok { error_date := error_date, error_type := error_type,
          found_in_blocks := true, block_index := block_idx,
          medical_keywords := some medical_keywords }

def classify_error_type (now : ℚ) (blocks : List Block) (error_date : String)
    (_baseline_dates : Finset String := ∅) : Except String ErrorAnalysis :=
  Except.bind (find_block_with_date blocks error_date) fun fb =>
    classify_with_index now blocks error_date fb.1

/-- An entry `(i, date, page, y)` of the `all_dates` list built by
`analyze_date_sequence`. -/
structure SeqEntry where
  idx : Nat
  date : String
  page : Int
  y : ℚ
  deriving DecidableEq

/-- The sort key comparison `(page, y)` used by
`all_dates.sort(key=lambda x: (x[2], x[3]))`. -/
def seqLt (a b : SeqEntry) : Bool :=
  decide (a.page < b.page) || (decide (a.page = b.page) && decide (a.y < b.y))

/-- Stable insertion: an element goes after existing equal keys, as in
Python's stable sort. -/
def insertBy (lt : SeqEntry → SeqEntry → Bool) (a : SeqEntry) : List SeqEntry → List SeqEntry
  | [] => [a]
  | b :: r => if lt a b then a :: b :: r else b :: insertBy lt a r

/-- Stable sort by `lt`. -/
def sortBy (lt : SeqEntry → SeqEntry → Bool) : List SeqEntry → List SeqEntry
  | [] => []
  | a :: r => insertBy lt a (sortBy lt r)

/-- The `all_dates` list of `analyze_date_sequence` (lines 151-164):
for every block, every extracted date whose `-`-leading component
parses as an `int` in `[1900, 2100]` contributes `(i, date, page, y)`;
the list is then sorted by `(page, y)`.  A Python `set`'s iteration
order is unspecified; the model iterates the extracted dates in
first-occurrence order (`dedup` of the scan order), and every property
proved about this list is order-independent. -/
def analyze_date_sequence_dates (blocks : List Block) : List SeqEntry :=
  let collected := (blocks.enum).flatMap fun p =>
    ((extractDatesList p.2.text).dedup).filterMap fun ds =>
      (pyInt? ((pySplit '-' ds.data).headI)).bind fun yr =>
        if 1900 ≤ yr && yr ≤ 2100 then some ⟨p.1, ds, p.2.page, p.2.y⟩ else none
  sortBy seqLt collected

/-- The canonical date string `f"{year}-{month.zfill(2)}-{day.zfill(2)}"`
for numeric components, the shape every date handled by the
comparison/classification pipeline has. -/
def mkDate (y m d : Nat) : String :=
  ⟨natDigits y ++ '-' :: (zfill 2 (natDigits m) ++ '-' :: zfill 2 (natDigits d))⟩

/-- The literal renderings of a calendar date named by the spec:
hyphen, dot, slash and the two Korean forms, each with zero-padded and
with unpadded month/day.  The six patterns searched by
`find_block_with_date` are all among them. -/
def renderings (y m d : Nat) : List (List Char) :=
  let ys := natDigits y
  let ms := zfill 2 (natDigits m)
  let ds := zfill 2 (natDigits d)
  let mu := natDigits m
  let du := natDigits d
  [ys ++ '-' :: ms ++ '-' :: ds,
   ys ++ '.' :: ms ++ '.' :: ds,
   ys ++ '/' :: ms ++ '/' :: ds,
   ys ++ '년' :: ms ++ '월' :: ds ++ ['일'],
   ys ++ '년' :: ' ' :: ms ++ '월' :: ' ' :: ds ++ ['일'],
   ys ++ '-' :: mu ++ '-' :: du,
   ys ++ '.' :: mu ++ '.' :: du,
   ys ++ '/' :: mu ++ '/' :: du,
   ys ++ '년' :: mu ++ '월' :: du ++ ['일'],
   ys ++ '년' :: ' ' :: mu ++ '월' :: ' ' :: du ++ ['일']]

/-! ## Basic lemmas about the character and number utilities -/

theorem isDig_iff {c : Char} : isDig c = true ↔ 48 ≤ c.toNat ∧ c.toNat ≤ 57 := by
  simp [isDig]

theorem isDig_digitChar {n : Nat} (h : n < 10) : isDig (digitChar n) = true := by
  interval_cases n <;> decide

theorem digitVal_digitChar {n : Nat} (h : n < 10) : digitVal (digitChar n) = n := by
  interval_cases n <;> decide

theorem digitsVal_append_singleton (l : List Char) (c : Char) :
    digitsVal (l ++ [c]) = 10 * digitsVal l + digitVal c := by
  simp [digitsVal, List.foldl_append]

theorem natDigitsAux_spec (fuel : Nat) : ∀ n, n < fuel →
    natDigitsAux fuel n ≠ [] ∧ (∀ c ∈ natDigitsAux fuel n, isDig c = true) ∧
      digitsVal (natDigitsAux fuel n) = n := by
  induction fuel with
  | zero => intro n h; exact absurd h (Nat.not_lt_zero n)
  | succ fuel ih =>
    intro n h
    by_cases h10 : n < 10
    · rw [natDigitsAux, if_pos h10]
      refine ⟨by simp, ?_, ?_⟩
      · intro c hc
        rw [List.mem_singleton] at hc
        subst hc
        exact isDig_digitChar h10
      · simpa [digitsVal] using digitVal_digitChar h10
    · have hdiv : n / 10 < fuel :=
        lt_of_lt_of_le (Nat.div_lt_self (by omega) (by omega)) (by omega)
      obtain ⟨hne, hdig, hval⟩ := ih (n / 10) hdiv
      rw [natDigitsAux, if_neg h10]
      have hmod : n % 10 < 10 := Nat.mod_lt _ (by omega)
      refine ⟨by simp, ?_, ?_⟩
      · intro c hc
        rcases List.mem_append.1 hc with hc | hc
        · exact hdig c hc
        · rw [List.mem_singleton] at hc
          subst hc
          exact isDig_digitChar hmod
      · rw [digitsVal_append_singleton, hval, digitVal_digitChar hmod]
        omega

theorem natDigits_ne_nil (n : Nat) : natDigits n ≠ [] :=
  (natDigitsAux_spec (n + 1) n (Nat.lt_succ_self n)).1

theorem natDigits_all_dig (n : Nat) : ∀ c ∈ natDigits n, isDig c = true :=
  (natDigitsAux_spec (n + 1) n (Nat.lt_succ_self n)).2.1

theorem digitsVal_natDigits (n : Nat) : digitsVal (natDigits n) = n :=
  (natDigitsAux_spec (n + 1) n (Nat.lt_succ_self n)).2.2

theorem isDig_ne {c d : Char} (h : isDig c = true) (hd : isDig d = false) : c ≠ d := by
  intro e
  subst e
  rw [h] at hd
  cases hd

theorem isDig_not_space {c : Char} (h : isDig c = true) : isPySpace c = false := by
  have hb := isDig_iff.mp h
  simp only [isPySpace]
  simp only [Bool.or_eq_false_iff, decide_eq_false_iff_not]
  omega

/-! ## `pySplit` lemmas -/

theorem pySplit_ne_nil (sep : Char) (l : List Char) : pySplit sep l ≠ [] := by
  cases l with
  | nil => simp [pySplit]
  | cons x xs =>
    simp only [pySplit]
    split <;> simp

theorem pySplit_nosep {sep : Char} {A : List Char} (h : ∀ c ∈ A, c ≠ sep) :
    pySplit sep A = [A] := by
  induction A with
  | nil => rfl
  | cons x xs ih =>
    have hx : x ≠ sep := h x (List.mem_cons_self x xs)
    simp only [pySplit, if_neg hx]
    rw [ih fun c hc => h c (List.mem_cons_of_mem _ hc)]
    simp

theorem pySplit_append {sep : Char} {A : List Char} (B : List Char) (h : ∀ c ∈ A, c ≠ sep) :
    pySplit sep (A ++ sep :: B) = A :: pySplit sep B := by
  induction A with
  | nil => simp [pySplit]
  | cons x xs ih =>
    have hx : x ≠ sep := h x (List.mem_cons_self x xs)
    simp only [List.cons_append, pySplit, if_neg hx, List.append_eq]
    rw [ih fun c hc => h c (List.mem_cons_of_mem _ hc)]
    simp

/-! ## `zfill` and `pyInt?` on digit strings -/

theorem zfill_two_digits {l : List Char} (hne : l ≠ []) (hd : ∀ c ∈ l, isDig c = true) :
    zfill 2 l ≠ [] ∧ (∀ c ∈ zfill 2 l, isDig c = true) ∧
      digitsVal (zfill 2 l) = digitsVal l := by
  obtain ⟨c, r, rfl⟩ := List.exists_cons_of_ne_nil hne
  have hc : isDig c = true := hd c (List.mem_cons_self c r)
  have hcond : ¬(c :: r ≠ [] ∧ ((c :: r).headI = '+' ∨ (c :: r).headI = '-')) := by
    simp only [List.headI]
    rintro ⟨-, h | h⟩
    · exact isDig_ne hc (by decide) h
    · exact isDig_ne hc (by decide) h
  rw [zfill, if_neg hcond]
  cases r with
  | nil =>
    refine ⟨by simp, ?_, ?_⟩
    · intro x hx
      have hx2 : x = '0' ∨ x = c := by simpa using hx
      rcases hx2 with rfl | rfl
      · decide
      · exact hc
    · show digitsVal ('0' :: [c]) = digitsVal [c]
      simp [digitsVal, digitVal]
  | cons c2 r2 =>
    have hlen : 2 - (c :: c2 :: r2).length = 0 := by simp
    rw [hlen]
    exact ⟨by simp, hd, rfl⟩

theorem stripPy_digits {l : List Char} (hne : l ≠ []) (hd : ∀ c ∈ l, isDig c = true) :
    stripPy l = l := by
  have h1 : l.dropWhile isPySpace = l := by
    cases l with
    | nil => rfl
    | cons c r =>
      rw [List.dropWhile_cons, if_neg]
      rw [isDig_not_space (hd c (List.mem_cons_self c r))]
      simp
  have h2 : l.reverse.dropWhile isPySpace = l.reverse := by
    cases hr : l.reverse with
    | nil => rfl
    | cons c r =>
      have hc : c ∈ l := by
        rw [← List.mem_reverse, hr]
        exact List.mem_cons_self c r
      rw [List.dropWhile_cons, if_neg]
      rw [isDig_not_space (hd c hc)]
      simp
  rw [stripPy, h1, h2, List.reverse_reverse]

theorem digitGroupTail_digits {l : List Char} (hd : ∀ c ∈ l, isDig c = true) :
    digitGroupTail l = true := by
  induction l with
  | nil => rfl
  | cons c r ih =>
    have hc := hd c (List.mem_cons_self c r)
    have hcu : c ≠ '_' := isDig_ne hc (by decide)
    have ihr := ih fun x hx => hd x (List.mem_cons_of_mem _ hx)
    cases r with
    | nil =>
      rw [show digitGroupTail [c] = (if c = '_' then false else isDig c && digitGroupTail [])
            from rfl,
        if_neg hcu, hc]
      rfl
    | cons c2 r2 =>
      rw [show digitGroupTail (c :: c2 :: r2) =
            (if c = '_' then isDig c2 && digitGroupTail r2
             else isDig c && digitGroupTail (c2 :: r2)) from rfl,
        if_neg hcu, hc, ihr]
      rfl

theorem pyInt?_digits {l : List Char} (hne : l ≠ []) (hd : ∀ c ∈ l, isDig c = true) :
    pyInt? l = some ((digitsVal l : Nat) : Int) := by
  obtain ⟨c, r, rfl⟩ := List.exists_cons_of_ne_nil hne
  have hc : isDig c = true := hd c (List.mem_cons_self c r)
  have hgroup : isDigitGroup (c :: r) = true := by
    rw [isDigitGroup, hc, digitGroupTail_digits fun x hx => hd x (List.mem_cons_of_mem _ hx)]
    rfl
  have hfilter : (c :: r).filter (fun x => x != '_') = c :: r :=
    List.filter_eq_self.mpr fun a ha => by
      simpa using isDig_ne (hd a ha) (by decide)
  rw [pyInt?, stripPy_digits hne hd,
    show pyIntCore (c :: r) =
      (if c = '+' then
        if isDigitGroup r then some (intOfDigits r) else none
      else if c = '-' then
        if isDigitGroup r then some (-(intOfDigits r)) else none
      else
        if isDigitGroup (c :: r) then some (intOfDigits (c :: r)) else none) from rfl,
    if_neg (isDig_ne hc (by decide)), if_neg (isDig_ne hc (by decide)),
    if_pos hgroup, intOfDigits, hfilter]

theorem intDigits_natCast (n : Nat) : intDigits (n : Int) = natDigits n := by
  rw [intDigits, if_neg (by omega), Int.natAbs_ofNat]

/-! ## `mkDate` parsing lemmas -/

theorem mkDate_data (y m d : Nat) :
    (mkDate y m d).data =
      natDigits y ++ '-' :: (zfill 2 (natDigits m) ++ '-' :: zfill 2 (natDigits d)) := rfl

theorem mkDate_split (y m d : Nat) :
    pySplit '-' (mkDate y m d).data =
      [natDigits y, zfill 2 (natDigits m), zfill 2 (natDigits d)] := by
  obtain ⟨hm1, hm2, -⟩ := zfill_two_digits (natDigits_ne_nil m) (natDigits_all_dig m)
  obtain ⟨hd1, hd2, -⟩ := zfill_two_digits (natDigits_ne_nil d) (natDigits_all_dig d)
  rw [mkDate_data,
    pySplit_append _ fun c hc => isDig_ne (natDigits_all_dig y c hc) (by decide),
    pySplit_append _ fun c hc => isDig_ne (hm2 c hc) (by decide),
    pySplit_nosep fun c hc => isDig_ne (hd2 c hc) (by decide)]

theorem mkDate_ints (y m d : Nat) :
    pyInt? (natDigits y) = some ((y : Nat) : Int) ∧
      pyInt? (zfill 2 (natDigits m)) = some ((m : Nat) : Int) ∧
      pyInt? (zfill 2 (natDigits d)) = some ((d : Nat) : Int) := by
  obtain ⟨hm1, hm2, hm3⟩ := zfill_two_digits (natDigits_ne_nil m) (natDigits_all_dig m)
  obtain ⟨hd1, hd2, hd3⟩ := zfill_two_digits (natDigits_ne_nil d) (natDigits_all_dig d)
  refine ⟨?_, ?_, ?_⟩
  · rw [pyInt?_digits (natDigits_ne_nil y) (natDigits_all_dig y), digitsVal_natDigits]
  · rw [pyInt?_digits hm1 hm2, hm3, digitsVal_natDigits]
  · rw [pyInt?_digits hd1 hd2, hd3, digitsVal_natDigits]

/-! ## Inversion of the `strptime` regex model -/

theorem digitsVal_singleton (c : Char) : digitsVal [c] = digitVal c := by
  simp [digitsVal]

theorem digitsVal_pair (a b : Char) : digitsVal [a, b] = 10 * digitVal a + digitVal b := by
  simp [digitsVal]

theorem monthMatch_spec {cs : List Char} {m : Nat} {r : List Char}
    (h : monthMatch cs = some (m, r)) :
    ∃ g, cs = g ++ r ∧ g ≠ [] ∧ (∀ c ∈ g, isDig c = true) ∧ digitsVal g = m ∧
      1 ≤ m ∧ m ≤ 12 := by
  cases cs with
  | nil => simp [monthMatch] at h
  | cons c1 t =>
    cases t with
    | nil =>
      simp only [monthMatch] at h
      split at h
      · rename_i h49
        simp only [Option.some.injEq, Prod.mk.injEq] at h
        obtain ⟨rfl, rfl⟩ := h
        refine ⟨[c1], by simp, by simp, ?_, ?_, by omega, by omega⟩
        · intro c hc
          rw [List.mem_singleton] at hc
          subst hc
          exact isDig_iff.mpr ⟨by omega, by omega⟩
        · rw [digitsVal_singleton]; rfl
      · exact absurd h (by simp)
    | cons c2 rest =>
      simp only [monthMatch] at h
      split at h
      · rename_i h1
        subst h1
        split at h
        · rename_i h2
          simp only [Option.some.injEq, Prod.mk.injEq] at h
          obtain ⟨rfl, rfl⟩ := h
          refine ⟨['1', c2], by simp, by simp, ?_, ?_, by omega, by omega⟩
          · intro c hc
            rcases (by simpa using hc : c = '1' ∨ c = c2) with rfl | rfl
            · decide
            · exact isDig_iff.mpr ⟨by omega, by omega⟩
          · rw [digitsVal_pair]
            have h1v : digitVal '1' = 1 := rfl
            rw [h1v]
            rfl
        · simp only [Option.some.injEq, Prod.mk.injEq] at h
          obtain ⟨rfl, rfl⟩ := h
          refine ⟨['1'], by simp, by simp, ?_, by decide, by omega, by omega⟩
          intro c hc
          rw [List.mem_singleton] at hc
          subst hc
          decide
      · split at h
        · rename_i h1 h0
          subst h0
          split at h
          · rename_i h2
            simp only [Option.some.injEq, Prod.mk.injEq] at h
            obtain ⟨rfl, rfl⟩ := h
            refine ⟨['0', c2], by simp, by simp, ?_, ?_, by omega, by omega⟩
            · intro c hc
              rcases (by simpa using hc : c = '0' ∨ c = c2) with rfl | rfl
              · decide
              · exact isDig_iff.mpr ⟨by omega, by omega⟩
            · rw [digitsVal_pair]
              have h0v : digitVal '0' = 0 := rfl
              rw [h0v]
              show 10 * 0 + (c2.toNat - 48) = c2.toNat - 48
              omega
          · exact absurd h (by simp)
        · split at h
          · rename_i h1 h0 h19
            simp only [Option.some.injEq, Prod.mk.injEq] at h
            obtain ⟨rfl, rfl⟩ := h
            refine ⟨[c1], by simp, by simp, ?_, ?_, by omega, by omega⟩
            · intro c hc
              rw [List.mem_singleton] at hc
              subst hc
              exact isDig_iff.mpr ⟨by omega, by omega⟩
            · rw [digitsVal_singleton]; rfl
          · exact absurd h (by simp)

theorem dayMatch_spec {cs : List Char} {d : Nat} {r : List Char}
    (h : dayMatch cs = some (d, r)) :
    ∃ g, cs = g ++ r ∧ g ≠ [] ∧ (∀ c ∈ g, isDig c = true) ∧ digitsVal g = d ∧
      1 ≤ d ∧ d ≤ 31 := by
  cases cs with
  | nil => simp [dayMatch] at h
  | cons c1 t =>
    cases t with
    | nil =>
      simp only [dayMatch] at h
      split at h
      · rename_i h49
        simp only [Option.some.injEq, Prod.mk.injEq] at h
        obtain ⟨rfl, rfl⟩ := h
        refine ⟨[c1], by simp, by simp, ?_, ?_, by omega, by omega⟩
        · intro c hc
          rw [List.mem_singleton] at hc
          subst hc
          exact isDig_iff.mpr ⟨by omega, by omega⟩
        · rw [digitsVal_singleton]; rfl
      · exact absurd h (by simp)
    | cons c2 rest =>
      simp only [dayMatch] at h
      split at h
      · rename_i h3
        subst h3
        split at h
        · rename_i h2
          simp only [Option.some.injEq, Prod.mk.injEq] at h
          obtain ⟨rfl, rfl⟩ := h
          refine ⟨['3', c2], by simp, by simp, ?_, ?_, by omega, by omega⟩
          · intro c hc
            rcases (by simpa using hc : c = '3' ∨ c = c2) with rfl | rfl
            · decide
            · exact isDig_iff.mpr ⟨by omega, by omega⟩
          · rw [digitsVal_pair]
            have h3v : digitVal '3' = 3 := rfl
            rw [h3v]
            show 10 * 3 + (c2.toNat - 48) = 30 + (c2.toNat - 48)
            omega
        · simp only [Option.some.injEq, Prod.mk.injEq] at h
          obtain ⟨rfl, rfl⟩ := h
          refine ⟨['3'], by simp, by simp, ?_, by decide, by omega, by omega⟩
          intro c hc
          rw [List.mem_singleton] at hc
          subst hc
          decide
      · split at h
        · rename_i h3 h12
          split at h
          · rename_i h2
            have h12n : c1.toNat = 49 ∨ c1.toNat = 50 := by
              rcases h12 with rfl | rfl
              · exact Or.inl rfl
              · exact Or.inr rfl
            have h2n := isDig_iff.mp h2
            simp only [Option.some.injEq, Prod.mk.injEq] at h
            obtain ⟨rfl, rfl⟩ := h
            refine ⟨[c1, c2], by simp, by simp, ?_, ?_, by omega, by omega⟩
            · intro c hc
              rcases (by simpa using hc : c = c1 ∨ c = c2) with rfl | rfl
              · exact isDig_iff.mpr ⟨by omega, by omega⟩
              · exact h2
            · rw [digitsVal_pair]; rfl
          · have h12n : c1.toNat = 49 ∨ c1.toNat = 50 := by
              rcases h12 with rfl | rfl
              · exact Or.inl rfl
              · exact Or.inr rfl
            simp only [Option.some.injEq, Prod.mk.injEq] at h
            obtain ⟨rfl, rfl⟩ := h
            refine ⟨[c1], by simp, by simp, ?_, ?_, by omega, by omega⟩
            · intro c hc
              rw [List.mem_singleton] at hc
              subst hc
              exact isDig_iff.mpr ⟨by omega, by omega⟩
            · rw [digitsVal_singleton]; rfl
        · split at h
          · rename_i h3 h12 h0
            subst h0
            split at h
            · rename_i h2
              simp only [Option.some.injEq, Prod.mk.injEq] at h
              obtain ⟨rfl, rfl⟩ := h
              refine ⟨['0', c2], by simp, by simp, ?_, ?_, by omega, by omega⟩
              · intro c hc
                rcases (by simpa using hc : c = '0' ∨ c = c2) with rfl | rfl
                · decide
                · exact isDig_iff.mpr ⟨by omega, by omega⟩
              · rw [digitsVal_pair]
                have h0v : digitVal '0' = 0 := rfl
                rw [h0v]
                show 10 * 0 + (c2.toNat - 48) = c2.toNat - 48
                omega
            · exact absurd h (by simp)
          · split at h
            · rename_i h3 h12 h0 h19
              simp only [Option.some.injEq, Prod.mk.injEq] at h
              obtain ⟨rfl, rfl⟩ := h
              refine ⟨[c1], by simp, by simp, ?_, ?_, by omega, by omega⟩
              · intro c hc
                rw [List.mem_singleton] at hc
                subst hc
                exact isDig_iff.mpr ⟨by omega, by omega⟩
              · rw [digitsVal_singleton]; rfl
            · exact absurd h (by simp)

theorem expectChar_spec {c : Char} {l r : List Char} (h : expectChar c l = some r) :
    l = c :: r := by
  cases l with
  | nil => exact absurd h (by simp [expectChar])
  | cons x t =>
    simp only [expectChar] at h
    split at h
    · rename_i hx
      subst hx
      simp only [Option.some.injEq] at h
      subst h
      rfl
    · exact absurd h (by simp)

theorem matchYMD_spec {cs : List Char} {y m d : Nat} {rest : List Char}
    (h : matchYMD cs = some (y, m, d, rest)) :
    ∃ ycs mcs dcs,
      cs = ycs ++ '-' :: (mcs ++ '-' :: (dcs ++ rest)) ∧
      ycs.length = 4 ∧ (∀ c ∈ ycs, isDig c = true) ∧ digitsVal ycs = y ∧
      mcs ≠ [] ∧ (∀ c ∈ mcs, isDig c = true) ∧ digitsVal mcs = m ∧ 1 ≤ m ∧ m ≤ 12 ∧
      dcs ≠ [] ∧ (∀ c ∈ dcs, isDig c = true) ∧ digitsVal dcs = d ∧ 1 ≤ d ∧ d ≤ 31 := by
  cases cs with
  | nil => exact absurd h (by simp [matchYMD])
  | cons c1 t1 =>
  cases t1 with
  | nil => exact absurd h (by simp [matchYMD])
  | cons c2 t2 =>
  cases t2 with
  | nil => exact absurd h (by simp [matchYMD])
  | cons c3 t3 =>
  cases t3 with
  | nil => exact absurd h (by simp [matchYMD])
  | cons c4 t4 =>
  cases t4 with
  | nil => exact absurd h (by simp [matchYMD])
  | cons c5 rest0 =>
  simp only [matchYMD] at h
  split at h
  · rename_i hcond
    have hc5 : c5 = '-' := by
      simp only [Bool.and_eq_true, beq_iff_eq] at hcond
      exact hcond.2
    have hdigs : isDig c1 = true ∧ isDig c2 = true ∧ isDig c3 = true ∧ isDig c4 = true := by
      simp only [Bool.and_eq_true, beq_iff_eq] at hcond
      exact ⟨hcond.1.1.1.1, hcond.1.1.1.2, hcond.1.1.2, hcond.1.2⟩
    subst hc5
    rw [Option.bind_eq_some] at h
    obtain ⟨⟨m1, r1⟩, hmm, h⟩ := h
    rw [Option.bind_eq_some] at h
    obtain ⟨r2, hexp, h⟩ := h
    rw [Option.map_eq_some'] at h
    obtain ⟨⟨d1, r3⟩, hdd, h⟩ := h
    simp only [Prod.mk.injEq] at h
    obtain ⟨rfl, rfl, rfl, rfl⟩ := h
    have hr1 : r1 = '-' :: r2 := expectChar_spec hexp
    subst hr1
    obtain ⟨mcs, hmr, hmne, hmdig, hmval, hm1, hm12⟩ := monthMatch_spec hmm
    obtain ⟨dcs, hdr, hdne, hddig, hdval, hd1, hd31⟩ := dayMatch_spec hdd
    refine ⟨[c1, c2, c3, c4], mcs, dcs, ?_, by simp, ?_, rfl,
      hmne, hmdig, hmval, hm1, hm12, hdne, hddig, hdval, hd1, hd31⟩
    · rw [show ([c1, c2, c3, c4] : List Char) ++ '-' :: (mcs ++ '-' :: (dcs ++ r3)) =
          c1 :: c2 :: c3 :: c4 :: '-' :: (mcs ++ '-' :: (dcs ++ r3)) from rfl,
        ← hdr, ← hmr]
    · intro c hc
      rcases (by simpa using hc : c = c1 ∨ c = c2 ∨ c = c3 ∨ c = c4) with
        rfl | rfl | rfl | rfl
      · exact hdigs.1
      · exact hdigs.2.1
      · exact hdigs.2.2.1
      · exact hdigs.2.2.2
  · exact absurd h (by simp)

theorem strptimeYMD_spec {s : String} {y m d : Nat} (h : strptimeYMD s = some (y, m, d)) :
    ∃ ycs mcs dcs,
      s.data = ycs ++ '-' :: (mcs ++ '-' :: dcs) ∧
      ycs.length = 4 ∧ (∀ c ∈ ycs, isDig c = true) ∧ digitsVal ycs = y ∧
      mcs ≠ [] ∧ (∀ c ∈ mcs, isDig c = true) ∧ digitsVal mcs = m ∧ 1 ≤ m ∧ m ≤ 12 ∧
      dcs ≠ [] ∧ (∀ c ∈ dcs, isDig c = true) ∧ digitsVal dcs = d ∧ 1 ≤ d ∧ d ≤ 31 ∧
      1 ≤ y ∧ d ≤ daysInMonth y m := by
  rw [strptimeYMD, Option.bind_eq_some] at h
  obtain ⟨⟨y1, m1, d1, rest⟩, hmy, h⟩ := h
  split at h
  · split at h
    · rename_i hrest hval
      simp only [Option.some.injEq, Prod.mk.injEq] at h
      obtain ⟨rfl, rfl, rfl⟩ := h
      subst hrest
      obtain ⟨ycs, mcs, dcs, hdata, hylen, hydig, hyval, hmne, hmdig, hmval, hm1, hm12,
        hdne, hddig, hdval, hd1, hd31⟩ := matchYMD_spec hmy
      refine ⟨ycs, mcs, dcs, ?_, hylen, hydig, hyval, hmne, hmdig, hmval, hm1, hm12,
        hdne, hddig, hdval, hd1, hd31, hval.1, hval.2⟩
      simpa using hdata
    · exact absurd h (by simp)
  · exact absurd h (by simp)

/-- The calendar checks of `is_impossible_date` pass on every date the
real calendar accepts. -/
theorem is_impossible_core_valid {y m d : Nat} (hm1 : 1 ≤ m) (hm12 : m ≤ 12)
    (hd1 : 1 ≤ d) (hdim : d ≤ daysInMonth y m) :
    is_impossible_core (y : Int) (m : Int) (d : Int) = false := by
  have hidx : ((m : Int) - 1).toNat = m - 1 := by omega
  have hfeb : (m : Int) = 2 → (d : Int) = 29 → isLeapInt (y : Int) = true := by
    intro hm2 hd29
    have hm2n : m = 2 := by omega
    subst hm2n
    rw [daysInMonth, if_pos rfl] at hdim
    rcases hL : isLeapInt (y : Int) with - | -
    · rw [hL] at hdim
      simp only [Bool.false_eq_true, if_false] at hdim
      omega
    · rfl
  have htab : (d : Int) ≤ days_in_month.getD (m - 1) 0 := by
    by_cases hm2 : m = 2
    · subst hm2
      show (d : Int) ≤ 29
      rw [daysInMonth, if_pos rfl] at hdim
      rcases hL : isLeapInt (y : Int) with - | - <;> rw [hL] at hdim <;>
        simp only [Bool.false_eq_true, if_false, if_true] at hdim <;> omega
    · have hdm : daysInMonth y m =
          [31, 28, 31, 30, 31, 30, 31, 31, 30, 31, 30, 31].getD (m - 1) 0 := by
        rw [daysInMonth, if_neg hm2]
      rw [hdm] at hdim
      have htt : days_in_month.getD (m - 1) 0 =
          (([31, 28, 31, 30, 31, 30, 31, 31, 30, 31, 30, 31].getD (m - 1) 0 : Nat) : Int) := by
        interval_cases m <;> first | exact absurd rfl hm2 | rfl
      rw [htt]
      omega
  have hmneg : ¬((decide ((m : Int) < 1) || decide ((m : Int) > 12)) = true) := by
    simp only [Bool.or_eq_true, decide_eq_true_eq]
    omega
  have hdneg : ¬((decide ((d : Int) < 1) ||
      decide ((d : Int) > days_in_month.getD ((m : Int) - 1).toNat 0)) = true) := by
    rw [hidx]
    simp only [Bool.or_eq_true, decide_eq_true_eq]
    rintro (hlt | hgt)
    · omega
    · exact absurd htab (by omega)
  have hfebneg : ¬((decide ((m : Int) = 2) && decide ((d : Int) = 29) &&
      !isLeapInt (y : Int)) = true) := by
    simp only [Bool.and_eq_true, decide_eq_true_eq, Bool.not_eq_true']
    rintro ⟨⟨hm2, hd29⟩, hnl⟩
    rw [hfeb hm2 hd29] at hnl
    cases hnl
  rw [is_impossible_core, if_neg hmneg, if_neg hdneg, if_neg hfebneg]

/-- Any string accepted by `strptime` passes `is_impossible_date`:
the two predicates agree on which dates exist. -/
theorem strptime_not_impossible {s : String} {t : Nat × Nat × Nat}
    (h : strptimeYMD s = some t) : is_impossible_date s = false := by
  obtain ⟨y, m, d⟩ := t
  obtain ⟨ycs, mcs, dcs, hdata, hylen, hydig, hyval, hmne, hmdig, hmval, hm1, hm12,
    hdne, hddig, hdval, hd1, hd31, hy1, hdim⟩ := strptimeYMD_spec h
  have hyne : ycs ≠ [] := by
    intro e
    rw [e] at hylen
    simp at hylen
  have hsplit : pySplit '-' s.data = [ycs, mcs, dcs] := by
    rw [hdata,
      pySplit_append _ fun c hc => isDig_ne (hydig c hc) (by decide),
      pySplit_append _ fun c hc => isDig_ne (hmdig c hc) (by decide),
      pySplit_nosep fun c hc => isDig_ne (hddig c hc) (by decide)]
  have hp : parse3Ints s = some ((y : Int), (m : Int), (d : Int)) := by
    unfold parse3Ints
    rw [hsplit]
    show ((pyInt? ycs).bind fun a => (pyInt? mcs).bind fun b =>
        (pyInt? dcs).map fun c => (a, b, c)) = _
    rw [pyInt?_digits hyne hydig, pyInt?_digits hmne hmdig, pyInt?_digits hdne hddig]
    show some (((digitsVal ycs : Nat) : Int), ((digitsVal mcs : Nat) : Int),
      ((digitsVal dcs : Nat) : Int)) = _
    rw [hyval, hmval, hdval]
  rw [is_impossible_date, hp]
  show is_impossible_core (y : Int) (m : Int) (d : Int) = false
  exact is_impossible_core_valid hm1 hm12 hd1 hdim

/-! ## Reduction helpers for `Option.elim` and `Except.bind` -/

theorem option_elim_some {α β : Type _} (a : α) (b : β) (f : α → β) :
    (some a).elim b f = f a := rfl

theorem option_elim_none {α β : Type _} (b : β) (f : α → β) :
    (none : Option α).elim b f = b := rfl

theorem except_bind_ok {ε α β : Type _} (a : α) (f : α → Except ε β) :
    Except.bind (.ok a : Except ε α) f = f a := rfl

/-! ## Inversion of the scan model of `re.finditer` -/

theorem scanAux_mem {mh : List Char → Option ((List Char × List Char × List Char) × List Char)}
    {fuel : Nat} {cs : List Char} {g : List Char × List Char × List Char}
    (h : g ∈ scanAux mh fuel cs) :
    ∃ cs2 r, mh cs2 = some (g, r) := by
  induction fuel generalizing cs with
  | zero => simp [scanAux] at h
  | succ fuel ih =>
    cases cs with
    | nil =>
      rw [show scanAux mh (fuel + 1) [] =
            (mh []).elim [] (fun p => p.1 :: scanAux mh fuel p.2) from rfl] at h
      rcases hm : mh [] with - | ⟨g2, rest⟩ <;> rw [hm] at h
      · rw [option_elim_none] at h
        simp at h
      · rw [option_elim_some] at h
        rcases List.mem_cons.1 h with rfl | h2
        · exact ⟨[], rest, hm⟩
        · exact ih h2
    | cons c cs2 =>
      rw [show scanAux mh (fuel + 1) (c :: cs2) =
            (mh (c :: cs2)).elim (scanAux mh fuel cs2)
              (fun p => p.1 :: scanAux mh fuel p.2) from rfl] at h
      rcases hm : mh (c :: cs2) with - | ⟨g2, rest⟩ <;> rw [hm] at h
      · rw [option_elim_none] at h
        exact ih h
      · rw [option_elim_some] at h
        rcases List.mem_cons.1 h with rfl | h2
        · exact ⟨c :: cs2, rest, hm⟩
        · exact ih h2

theorem scan_mem {mh : List Char → Option ((List Char × List Char × List Char) × List Char)}
    {cs : List Char} {g : List Char × List Char × List Char} (h : g ∈ scan mh cs) :
    ∃ cs2 r, mh cs2 = some (g, r) :=
  scanAux_mem h

theorem digits12_spec {cs g r} (h : digits12 cs = some (g, r)) :
    g ≠ [] ∧ ∀ c ∈ g, isDig c = true := by
  cases cs with
  | nil => exact absurd h (by simp [digits12])
  | cons a t =>
    cases t with
    | nil =>
      simp only [digits12] at h
      split at h
      · rename_i ha
        simp only [Option.some.injEq, Prod.mk.injEq] at h
        obtain ⟨rfl, rfl⟩ := h
        refine ⟨by simp, ?_⟩
        intro c hc
        rw [List.mem_singleton] at hc
        subst hc
        exact ha
      · exact absurd h (by simp)
    | cons b t2 =>
      simp only [digits12] at h
      split at h
      · rename_i ha
        split at h
        · rename_i hb
          simp only [Option.some.injEq, Prod.mk.injEq] at h
          obtain ⟨rfl, rfl⟩ := h
          refine ⟨by simp, ?_⟩
          intro c hc
          rcases (by simpa using hc : c = a ∨ c = b) with rfl | rfl
          · exact ha
          · exact hb
        · simp only [Option.some.injEq, Prod.mk.injEq] at h
          obtain ⟨rfl, rfl⟩ := h
          refine ⟨by simp, ?_⟩
          intro c hc
          rw [List.mem_singleton] at hc
          subst hc
          exact ha
      · exact absurd h (by simp)

theorem p1MatchHere_spec {cs : List Char} {g : List Char × List Char × List Char}
    {rest : List Char} (h : p1MatchHere cs = some (g, rest)) :
    g.1.length = 4 ∧ (∀ c ∈ g.1, isDig c = true) ∧
      g.2.1 ≠ [] ∧ (∀ c ∈ g.2.1, isDig c = true) ∧
      g.2.2 ≠ [] ∧ (∀ c ∈ g.2.2, isDig c = true) := by
  cases cs with
  | nil => exact absurd h (by simp [p1MatchHere])
  | cons c1 t1 =>
  cases t1 with
  | nil => exact absurd h (by simp [p1MatchHere])
  | cons c2 t2 =>
  cases t2 with
  | nil => exact absurd h (by simp [p1MatchHere])
  | cons c3 t3 =>
  cases t3 with
  | nil => exact absurd h (by simp [p1MatchHere])
  | cons c4 t4 =>
  cases t4 with
  | nil => exact absurd h (by simp [p1MatchHere])
  | cons c5 rest0 =>
  simp only [p1MatchHere] at h
  split at h
  · rename_i hcond
    simp only [Bool.and_eq_true] at hcond
    rw [Option.bind_eq_some] at h
    obtain ⟨g2p, h2, h⟩ := h
    rw [Option.bind_eq_some] at h
    obtain ⟨s2, hs, h⟩ := h
    rw [Option.map_eq_some'] at h
    obtain ⟨g3p, h3, h⟩ := h
    obtain ⟨hg2ne, hg2dig⟩ := digits12_spec (show digits12 rest0 = some (g2p.1, g2p.2) from h2)
    obtain ⟨hg3ne, hg3dig⟩ := digits12_spec (show digits12 s2.2 = some (g3p.1, g3p.2) from h3)
    simp only [Prod.mk.injEq] at h
    obtain ⟨rfl, rfl⟩ := h
    refine ⟨by simp, ?_, hg2ne, hg2dig, hg3ne, hg3dig⟩
    intro c hc
    rcases (by simpa using hc : c = c1 ∨ c = c2 ∨ c = c3 ∨ c = c4) with rfl | rfl | rfl | rfl
    · exact hcond.1.1.1.1
    · exact hcond.1.1.1.2
    · exact hcond.1.1.2
    · exact hcond.1.2
  · exact absurd h (by simp)

theorem p2MatchHere_spec {cs : List Char} {g : List Char × List Char × List Char}
    {rest : List Char} (h : p2MatchHere cs = some (g, rest)) :
    g.1.length = 4 ∧ (∀ c ∈ g.1, isDig c = true) ∧
      g.2.1 ≠ [] ∧ (∀ c ∈ g.2.1, isDig c = true) ∧
      g.2.2 ≠ [] ∧ (∀ c ∈ g.2.2, isDig c = true) := by
  cases cs with
  | nil => exact absurd h (by simp [p2MatchHere])
  | cons c1 t1 =>
  cases t1 with
  | nil => exact absurd h (by simp [p2MatchHere])
  | cons c2 t2 =>
  cases t2 with
  | nil => exact absurd h (by simp [p2MatchHere])
  | cons c3 t3 =>
  cases t3 with
  | nil => exact absurd h (by simp [p2MatchHere])
  | cons c4 rest0 =>
  simp only [p2MatchHere] at h
  split at h
  · rename_i hcond
    simp only [Bool.and_eq_true] at hcond
    rw [Option.bind_eq_some] at h
    obtain ⟨r2, hr2, h⟩ := h
    rw [Option.bind_eq_some] at h
    obtain ⟨g2p, h2, h⟩ := h
    rw [Option.bind_eq_some] at h
    obtain ⟨r6, hr6, h⟩ := h
    rw [Option.bind_eq_some] at h
    obtain ⟨g3p, h3, h⟩ := h
    rw [Option.map_eq_some'] at h
    obtain ⟨r10, h10, h⟩ := h
    obtain ⟨hg2ne, hg2dig⟩ :=
      digits12_spec (show digits12 (r2.dropWhile isPySpace) = some (g2p.1, g2p.2) from h2)
    obtain ⟨hg3ne, hg3dig⟩ :=
      digits12_spec (show digits12 (r6.dropWhile isPySpace) = some (g3p.1, g3p.2) from h3)
    simp only [Prod.mk.injEq] at h
    obtain ⟨rfl, rfl⟩ := h
    refine ⟨by simp, ?_, hg2ne, hg2dig, hg3ne, hg3dig⟩
    intro c hc
    rcases (by simpa using hc : c = c1 ∨ c = c2 ∨ c = c3 ∨ c = c4) with rfl | rfl | rfl | rfl
    · exact hcond.1.1.1
    · exact hcond.1.1.2
    · exact hcond.1.2
    · exact hcond.2
  · exact absurd h (by simp)

/-- Every date produced by `extract_dates` starts with an exactly
four-digit year followed by `-`. -/
theorem extract_dates_year_shape {text ds : String} (h : ds ∈ extract_dates text) :
    ∃ ycs rest, ds.data = ycs ++ '-' :: rest ∧ ycs.length = 4 ∧
      ∀ c ∈ ycs, isDig c = true := by
  rw [extract_dates, List.mem_toFinset, extractDatesList, List.mem_append] at h
  rcases h with h | h <;>
    obtain ⟨g, hg, rfl⟩ := List.mem_map.1 h
  · obtain ⟨cs2, r, hm⟩ := scan_mem hg
    obtain ⟨hlen, hdig, -, -, -, -⟩ := p1MatchHere_spec hm
    exact ⟨g.1, zfill 2 g.2.1 ++ '-' :: zfill 2 g.2.2, rfl, hlen, hdig⟩
  · obtain ⟨cs2, r, hm⟩ := scan_mem hg
    obtain ⟨hlen, hdig, -, -, -, -⟩ := p2MatchHere_spec hm
    exact ⟨g.1, zfill 2 g.2.1 ++ '-' :: zfill 2 g.2.2, rfl, hlen, hdig⟩

/-! ## Lemmas about `find_block_with_date` and `classify_error_type` -/

theorem mkDate_mem_renderings (y m d : Nat) :
    (mkDate y m d).data ∈ renderings y m d := by
  rw [mkDate_data]
  simp only [renderings]
  refine List.mem_cons.mpr (Or.inl ?_)
  simp

theorem fbwd_fallback_mkDate (blocks : List Block) (y m d : Nat) :
    fbwd_fallback blocks (mkDate y m d) =
      fbwd_search blocks (natDigits y) (zfill 2 (natDigits m)) (zfill 2 (natDigits d)) := by
  unfold fbwd_fallback
  rw [mkDate_split]

theorem find_block_found {blocks : List Block} {s : String} {i : Nat}
    (hf : (blocks.findIdx? fun b => occursIn s.data b.text.data) = some i) :
    find_block_with_date blocks s = .ok ((i : Int), blocks.get? i) := by
  rw [find_block_with_date, hf, option_elim_some]

theorem find_block_not_found {blocks : List Block} {y m d : Nat}
    (h : ∀ p ∈ renderings y m d, ∀ b ∈ blocks, occursIn p b.text.data = false) :
    find_block_with_date blocks (mkDate y m d) = .ok (-1, none) := by
  have h1 : (blocks.findIdx? fun b => occursIn (mkDate y m d).data b.text.data) = none := by
    rw [List.findIdx?_eq_none_iff]
    intro b hb
    exact h _ (mkDate_mem_renderings y m d) b hb
  obtain ⟨hyi, hmi, hdi⟩ := mkDate_ints y m d
  have h2 : (blocks.findIdx? fun b =>
      (fbwd_patterns (natDigits y) (zfill 2 (natDigits m)) (zfill 2 (natDigits d))
        ((y : Nat) : Int) ((m : Nat) : Int) ((d : Nat) : Int)).any fun p =>
          occursIn p b.text.data) = none := by
    rw [List.findIdx?_eq_none_iff]
    intro b hb
    rw [List.any_eq_false]
    intro p hp
    have hpm : p ∈ renderings y m d := by
      simp only [fbwd_patterns, intDigits_natCast, List.mem_cons, List.not_mem_nil,
        or_false] at hp
      simp only [renderings, List.mem_cons, List.not_mem_nil, or_false]
      tauto
    simp [h p hpm b hb]
  rw [find_block_with_date, h1, option_elim_none, fbwd_fallback_mkDate, fbwd_search,
    hyi, hmi, hdi]
  show ((blocks.findIdx? fun b =>
      (fbwd_patterns (natDigits y) (zfill 2 (natDigits m)) (zfill 2 (natDigits d))
        ((y : Nat) : Int) ((m : Nat) : Int) ((d : Nat) : Int)).any fun p =>
          occursIn p b.text.data).elim
      (Except.ok (-1, none)) fun i => Except.ok ((i : Int), blocks.get? i)) =
    Except.ok (-1, none)
  rw [h2, option_elim_none]

/-- A date located in no block under any of its renderings
short-circuits to the fixed `baseline_error` analysis, with no
exception and independently of `now` and of the block geometry. -/
theorem classify_not_found (now : ℚ) (blocks : List Block) (y m d : Nat)
    (h : ∀ p ∈ renderings y m d, ∀ b ∈ blocks, occursIn p b.text.data = false) :
    classify_error_type now blocks (mkDate y m d) =
      .ok ⟨mkDate y m d, "baseline_error", false, -1, none⟩ := by
  rw [classify_error_type, find_block_not_found h, except_bind_ok]
  rfl

/-- Evaluation of `classify_error_type` on a canonical date found by
the literal substring search: the result is `ok`, `found_in_blocks`,
and its `error_type` is the source's decision chain over the parsed
components. -/
theorem classify_found_type (now : ℚ) (blocks : List Block) (y m d : Nat) {i : Nat}
    (hf : (blocks.findIdx? fun b => occursIn (mkDate y m d).data b.text.data) = some i) :
    classify_error_type now blocks (mkDate y m d) =
      .ok { error_date := mkDate y m d,
            error_type :=
              if ((m : Nat) : Int) < 1 ∨ ((m : Nat) : Int) > 12 then "인식오류"
              else if ((d : Nat) : Int) < 1 ∨ ((d : Nat) : Int) > 31 then "인식오류"
              else if ((y : Nat) : Int) > 2026 ∨ ((y : Nat) : Int) < 1950 then "인식오류"
              else (strptimeYMD (mkDate y m d)).elim "숫자배열오인" fun t =>
                if (dateOrdinal t.1 t.2.1 t.2.2 : ℚ) > now then "잘못인식" else "잘못인식",
            found_in_blocks := true, block_index := (i : Int),
            medical_keywords := some (extract_medical_keywords (String.intercalate " "
              ((get_surrounding_blocks blocks ((i : Int)).toNat 5).map fun p =>
                p.2.text))) } := by
  have hsplit := mkDate_split y m d
  obtain ⟨hyi, hmi, hdi⟩ := mkDate_ints y m d
  have hne : ¬((i : Int) = -1) := by omega
  have hg0 : getE [natDigits y, zfill 2 (natDigits m), zfill 2 (natDigits d)] 0 =
      .ok (natDigits y) := rfl
  have hg1 : getE [natDigits y, zfill 2 (natDigits m), zfill 2 (natDigits d)] 1 =
      .ok (zfill 2 (natDigits m)) := rfl
  have hg2 : getE [natDigits y, zfill 2 (natDigits m), zfill 2 (natDigits d)] 2 =
      .ok (zfill 2 (natDigits d)) := rfl
  have hyE : pyIntE (natDigits y) = .ok ((y : Nat) : Int) := by
    rw [pyIntE, hyi, option_elim_some]
  have hmE : pyIntE (zfill 2 (natDigits m)) = .ok ((m : Nat) : Int) := by
    rw [pyIntE, hmi, option_elim_some]
  have hdE : pyIntE (zfill 2 (natDigits d)) = .ok ((d : Nat) : Int) := by
    rw [pyIntE, hdi, option_elim_some]
  rw [classify_error_type, find_block_found hf, except_bind_ok]
  show classify_with_index now blocks (mkDate y m d) (i : Int) = _
  rw [classify_with_index, if_neg hne]
  simp only [hsplit, hg0, hg1, hg2, hyE, hmE, hdE, except_bind_ok]

/-! ## Membership in the chronological-sequence list -/

theorem mem_insertBy {lt : SeqEntry → SeqEntry → Bool} {a x : SeqEntry} {l : List SeqEntry} :
    x ∈ insertBy lt a l ↔ x = a ∨ x ∈ l := by
  induction l with
  | nil => simp [insertBy]
  | cons b r ih =>
    rw [insertBy]
    split
    · simp [List.mem_cons]
    · simp only [List.mem_cons, ih]
      tauto

theorem mem_sortBy {lt : SeqEntry → SeqEntry → Bool} {x : SeqEntry} {l : List SeqEntry} :
    x ∈ sortBy lt l ↔ x ∈ l := by
  induction l with
  | nil => simp [sortBy]
  | cons a r ih =>
    rw [sortBy, mem_insertBy, ih, List.mem_cons]

/-- Every entry of the `all_dates` list of `analyze_date_sequence`
has a leading date component parsed to a year in `[1900, 2100]`. -/
theorem seq_dates_year_range {blocks : List Block} {e : SeqEntry}
    (h : e ∈ analyze_date_sequence_dates blocks) :
    ∃ yr : Int, pyInt? ((pySplit '-' e.date.data).headI) = some yr ∧
      1900 ≤ yr ∧ yr ≤ 2100 := by
  rw [analyze_date_sequence_dates, mem_sortBy, List.mem_flatMap] at h
  obtain ⟨p, hp, he⟩ := h
  rw [List.mem_filterMap] at he
  obtain ⟨ds, hds, hmap⟩ := he
  rw [Option.bind_eq_some] at hmap
  obtain ⟨yr, hyr, hif⟩ := hmap
  split at hif
  · rename_i hcond
    simp only [Option.some.injEq] at hif
    subst hif
    simp only [Bool.and_eq_true, decide_eq_true_eq] at hcond
    exact ⟨yr, hyr, hcond.1, hcond.2⟩
  · exact absurd hif (by simp)

/-- The canonical form parses back to its numeric components. -/
theorem mkDate_parse3 (y m d : Nat) :
    parse3Ints (mkDate y m d) = some ((y : Int), (m : Int), (d : Int)) := by
  obtain ⟨hyi, hmi, hdi⟩ := mkDate_ints y m d
  unfold parse3Ints
  rw [mkDate_split]
  show ((pyInt? (natDigits y)).bind fun a => (pyInt? (zfill 2 (natDigits m))).bind fun b =>
      (pyInt? (zfill 2 (natDigits d))).map fun c => (a, b, c)) = _
  rw [hyi, hmi, hdi]
  rfl

/-- Every calendar-valid date passes `is_impossible_date`, with no
year restriction. -/
theorem is_impossible_mkDate_valid {y m d : Nat} (hm1 : 1 ≤ m) (hm12 : m ≤ 12)
    (hd1 : 1 ≤ d) (hdim : d ≤ daysInMonth y m) :
    is_impossible_date (mkDate y m d) = false := by
  rw [is_impossible_date, mkDate_parse3]
  show is_impossible_core (y : Int) (m : Int) (d : Int) = false
  exact is_impossible_core_valid hm1 hm12 hd1 hdim

/-- A block satisfying the literal search exists exactly when
`findIdx?` finds one. -/
theorem findIdx_of_any {blocks : List Block} {s : String}
    (h : (blocks.any fun b => occursIn s.data b.text.data) = true) :
    ∃ i, (blocks.findIdx? fun b => occursIn s.data b.text.data) = some i := by
  rcases hfi : blocks.findIdx? (fun b => occursIn s.data b.text.data) with - | i
  · rw [List.findIdx?_eq_none_iff] at hfi
    rw [List.any_eq_true] at h
    obtain ⟨b, hb, hocc⟩ := h
    rw [hfi b hb] at hocc
    cases hocc
  · exact ⟨i, hfi⟩

end VNexsus

/-! # The claims -/

/-- Claim C2: the date extractor maps all four supported literal
renderings of the same calendar date to the same singleton canonical
set, zero-padding single-digit month and day:
`extract("2024-5-1") = extract("2024.05.01") = extract("2024/5/01")
= extract("2024년 5월 1일") = {"2024-05-01"}`. -/
theorem C2_separator_styles_unified :
    VNexsus.extract_dates "2024-5-1" = {"2024-05-01"} ∧
    VNexsus.extract_dates "2024.05.01" = {"2024-05-01"} ∧
    VNexsus.extract_dates "2024/5/01" = {"2024-05-01"} ∧
    VNexsus.extract_dates "2024년 5월 1일" = {"2024-05-01"} := by
  refine ⟨?_, ?_, ?_, ?_⟩ <;> decide

/-- Claim C3: `classify_grade` is a pure function of the accuracy with
lower-bound-inclusive tiers: `[80, ∞) → "상"`, `[60, 80) → "중"`,
`(-∞, 60) → "하"`; in particular `grade 80 = "상"`,
`grade 79.999 = "중"`, `grade 60 = "중"`, `grade 59.999 = "하"`. -/
theorem C3_grade_tiers :
    (∀ a : ℚ, (80 ≤ a → VNexsus.classify_grade a = "상") ∧
      (60 ≤ a ∧ a < 80 → VNexsus.classify_grade a = "중") ∧
      (a < 60 → VNexsus.classify_grade a = "하")) ∧
    VNexsus.classify_grade 80 = "상" ∧
    VNexsus.classify_grade ((79999 : ℚ) / 1000) = "중" ∧
    VNexsus.classify_grade 60 = "중" ∧
    VNexsus.classify_grade ((59999 : ℚ) / 1000) = "하" := by
  have htier : ∀ a : ℚ, (80 ≤ a → VNexsus.classify_grade a = "상") ∧
      (60 ≤ a ∧ a < 80 → VNexsus.classify_grade a = "중") ∧
      (a < 60 → VNexsus.classify_grade a = "하") := by
    intro a
    refine ⟨?_, ?_, ?_⟩
    · intro h
      rw [VNexsus.classify_grade, if_pos h]
    · rintro ⟨h1, h2⟩
      rw [VNexsus.classify_grade, if_neg (not_le.mpr h2), if_pos h1]
    · intro h
      rw [VNexsus.classify_grade,
        if_neg (not_le.mpr (lt_of_lt_of_le h (by norm_num))), if_neg (not_le.mpr h)]
  exact ⟨htier, (htier 80).1 (by norm_num), (htier _).2.1 (by norm_num),
    (htier 60).2.1 (by norm_num), (htier _).2.2 (by norm_num)⟩

/-- Witness for C3 at the concrete accuracies 100, 70 and 10. -/
theorem C3_grade_tiers_witness :
    VNexsus.classify_grade 100 = "상" ∧ VNexsus.classify_grade 70 = "중" ∧
    VNexsus.classify_grade 10 = "하" :=
  ⟨(C3_grade_tiers.1 100).1 (by norm_num), (C3_grade_tiers.1 70).2.1 (by norm_num),
    (C3_grade_tiers.1 10).2.2 (by norm_num)⟩

/-- Counterexample to claim C1 as stated: in `analyze_case` of
`validate-dates.py`, an empty reference set against the non-empty
candidate `{"2024-05-01"}` yields coverage 0.0, not 100.0. -/
theorem C1_empty_reference_counterexample :
    VNexsus.coverage_percent ∅ {"2024-05-01"} = 0 ∧ (0 : ℚ) ≠ 100 := by
  constructor
  · rw [VNexsus.coverage_percent, if_pos (by simp), if_neg (by simp)]
  · norm_num

/-- Claim C1 as amended: in `quick-validate-28.py` an empty baseline
yields accuracy 100.0 whatever the candidate set is; in
`validate-dates.py`'s `analyze_case` an empty baseline yields coverage
100.0 only when the candidate set is also empty, and 0.0 otherwise. -/
theorem C1_empty_reference_amended :
    (∀ C : Finset String, VNexsus.quick_accuracy ∅ C = 100) ∧
    VNexsus.coverage_percent ∅ ∅ = 100 ∧
    (∀ C : Finset String, C ≠ ∅ → VNexsus.coverage_percent ∅ C = 0) := by
  refine ⟨?_, ?_, ?_⟩
  · intro C
    rw [VNexsus.quick_accuracy, if_neg (by simp)]
  · rw [VNexsus.coverage_percent, if_pos (by simp), if_pos (by simp)]
  · intro C hC
    rw [VNexsus.coverage_percent, if_pos (by simp),
      if_neg fun h => hC (Finset.card_eq_zero.mp h)]

/-- Witness for C1 at the concrete candidate `{"2024-05-01"}`. -/
theorem C1_empty_reference_witness :
    VNexsus.quick_accuracy ∅ {"2024-05-01"} = 100 ∧
    VNexsus.coverage_percent ∅ {"2024-05-01"} = 0 :=
  ⟨C1_empty_reference_amended.1 {"2024-05-01"},
    C1_empty_reference_amended.2.2 {"2024-05-01"} (by decide)⟩

/-- Claim C9: the set comparator of `analyze_case` is symmetric under
swapping its arguments: `matched` is unchanged and `extra` of one
order is `missing` of the other. -/
theorem C9_comparator_symmetry :
    ∀ A B : Finset String,
      (VNexsus.analyze_case_compare A B).matched =
        (VNexsus.analyze_case_compare B A).matched ∧
      (VNexsus.analyze_case_compare A B).extra =
        (VNexsus.analyze_case_compare B A).missing :=
  fun A B => ⟨Finset.inter_comm A B, rfl⟩

/-- Claim C8: `is_impossible_date` applies full calendar rules with
the Gregorian leap rule (`2024-02-29` valid, `2023-02-29`,
`2024-13-01`, `2024-00-10` impossible) and classifies any string with
a non-numeric component as impossible instead of raising. -/
theorem C8_calendar_validation :
    VNexsus.is_impossible_date "2024-02-29" = false ∧
    VNexsus.is_impossible_date "2023-02-29" = true ∧
    VNexsus.is_impossible_date "2024-13-01" = true ∧
    VNexsus.is_impossible_date "2024-00-10" = true ∧
    (∀ s : String, ∀ part ∈ VNexsus.pySplit '-' s.data, VNexsus.pyInt? part = none →
      VNexsus.is_impossible_date s = true) := by
  refine ⟨by decide, by decide, by decide, by decide, ?_⟩
  intro s part hmem hnone
  have hp : VNexsus.parse3Ints s = none := by
    unfold VNexsus.parse3Ints
    rcases hsp : VNexsus.pySplit '-' s.data with - | ⟨a, t1⟩
    · rfl
    rcases t1 with - | ⟨b, t2⟩
    · rfl
    rcases t2 with - | ⟨c, t3⟩
    · rfl
    rcases t3 with - | ⟨e, t4⟩
    case cons.cons.cons.cons => rfl
    rw [hsp] at hmem
    show ((VNexsus.pyInt? a).bind fun yy => (VNexsus.pyInt? b).bind fun mm =>
      (VNexsus.pyInt? c).map fun dd => (yy, mm, dd)) = none
    rcases (by simpa using hmem : part = a ∨ part = b ∨ part = c) with rfl | rfl | rfl
    · rw [hnone]
      rfl
    · rcases hpa : VNexsus.pyInt? a with - | va
      · rfl
      · show ((VNexsus.pyInt? part).bind fun mm =>
          (VNexsus.pyInt? c).map fun dd => (va, mm, dd)) = none
        rw [hnone]
        rfl
    · rcases hpa : VNexsus.pyInt? a with - | va
      · rfl
      · show ((VNexsus.pyInt? b).bind fun mm =>
          (VNexsus.pyInt? part).map fun dd => (va, mm, dd)) = none
        rcases hpb : VNexsus.pyInt? b with - | vb
        · rfl
        · show ((VNexsus.pyInt? part).map fun dd => (va, vb, dd)) = none
          rw [hnone]
          rfl
  rw [VNexsus.is_impossible_date, hp, VNexsus.option_elim_none]

/-- Witness for C8 at the non-numeric component `"ab"` of
`"2024-ab-01"`. -/
theorem C8_calendar_validation_witness :
    VNexsus.is_impossible_date "2024-ab-01" = true :=
  C8_calendar_validation.2.2.2.2 "2024-ab-01" "ab".data (by decide) (by decide)

/-- Claim C7: the impossible-date and future-date predicates are
mutually exclusive — an impossible date is never flagged future, for
any current time and tolerance — and in particular the `future` sample
of a validation result never contains an impossible date. -/
theorem C7_impossible_never_future :
    (∀ (s : String) (now : ℚ) (tol : Int),
      VNexsus.is_impossible_date s = true → VNexsus.is_future_date now tol s = false) ∧
    (∀ (now : ℚ) (tol : Int) (missing : List String),
      ∀ d ∈ VNexsus.future_dates_sample now tol missing,
        VNexsus.is_impossible_date d = false) := by
  refine ⟨?_, ?_⟩
  · intro s now tol himp
    rcases hst : VNexsus.strptimeYMD s with - | t
    · rw [VNexsus.is_future_date, hst, VNexsus.option_elim_none]
    · exact absurd himp (by rw [VNexsus.strptime_not_impossible hst]; simp)
  · intro now tol missing d hd
    rw [VNexsus.future_dates_sample, List.mem_filter] at hd
    have hb := hd.2
    simp only [Bool.and_eq_true, Bool.not_eq_true'] at hb
    exact hb.2

/-- Witness for C7: the impossible `"2024-13-01"` is not future, and
the far-future `"9999-01-01"`, which does pass the future filter, is
not impossible. -/
theorem C7_impossible_never_future_witness :
    VNexsus.is_future_date 0 30 "2024-13-01" = false ∧
    VNexsus.is_impossible_date "9999-01-01" = false := by
  have hfut : VNexsus.is_future_date 0 30 "9999-01-01" = true := by
    rw [VNexsus.is_future_date,
      show VNexsus.strptimeYMD "9999-01-01" = some (9999, 1, 1) from by decide,
      VNexsus.option_elim_some,
      show VNexsus.dateOrdinal 9999 1 1 = 3651695 from by decide]
    simp only [decide_eq_true_eq]
    push_cast
    norm_num
  have hmem : "9999-01-01" ∈ VNexsus.future_dates_sample 0 30 ["9999-01-01"] := by
    rw [VNexsus.future_dates_sample]
    refine List.mem_filter.mpr ⟨by simp, ?_⟩
    rw [hfut, show VNexsus.is_impossible_date "9999-01-01" = false from by decide]
    rfl
  exact ⟨C7_impossible_never_future.1 "2024-13-01" 0 30 (by decide),
    C7_impossible_never_future.2 0 30 ["9999-01-01"] "9999-01-01" hmem⟩

/-- Claim C4 as amended: every extracted date starts with an exactly
four-digit year (the captured year group), but the regex scan is not
anchored at token boundaries: a longer digit run still yields a match,
so `extract("12024-05-01") = {"2024-05-01"}` rather than the empty
set. -/
theorem C4_year_four_digits_amended :
    (∀ text ds, ds ∈ VNexsus.extract_dates text →
      ∃ ycs rest, ds.data = ycs ++ '-' :: rest ∧ ycs.length = 4 ∧
        ∀ c ∈ ycs, VNexsus.isDig c = true) ∧
    VNexsus.extract_dates "12024-05-01" = {"2024-05-01"} :=
  ⟨fun _ _ h => VNexsus.extract_dates_year_shape h, by decide⟩

/-- Counterexample to claim C4 as stated: the token `"12024-05-01"`
(five-digit year run) does produce an extracted date. -/
theorem C4_year_four_digits_counterexample :
    VNexsus.extract_dates "12024-05-01" = {"2024-05-01"} ∧
    VNexsus.extract_dates "12024-05-01" ≠ ∅ := ⟨by decide, by decide⟩

/-- Witness for C4 at the text `"2024-05-01"`. -/
theorem C4_year_four_digits_witness :
    ∃ ycs rest, "2024-05-01".data = ycs ++ '-' :: rest ∧ ycs.length = 4 ∧
      ∀ c ∈ ycs, VNexsus.isDig c = true :=
  C4_year_four_digits_amended.1 "2024-05-01" "2024-05-01" (by decide)

/-- Claim C5 as amended: for a canonical date found in a block, a
month outside 1..12 or a day outside 1..31 yields the
recognition-error classification (`"인식오류"`); but a date whose
month and day lie inside those display ranges and which is merely
calendar-invalid (such as a day 30 in February) falls through to the
`strptime` branch and yields the number-array-misrecognition
classification (`"숫자배열오인"`) instead. -/
theorem C5_out_of_range_amended :
    (∀ (now : ℚ) (blocks : List VNexsus.Block) (y m d : Nat),
      (blocks.any fun b => VNexsus.occursIn (VNexsus.mkDate y m d).data b.text.data) = true →
      (m < 1 ∨ m > 12 ∨ d < 1 ∨ d > 31) →
      ∃ a, VNexsus.classify_error_type now blocks (VNexsus.mkDate y m d) = .ok a ∧
        a.found_in_blocks = true ∧ a.error_type = "인식오류") ∧
    (∀ (now : ℚ) (blocks : List VNexsus.Block) (y m d : Nat),
      (blocks.any fun b => VNexsus.occursIn (VNexsus.mkDate y m d).data b.text.data) = true →
      1 ≤ m → m ≤ 12 → 1 ≤ d → d ≤ 31 → 1950 ≤ y → y ≤ 2026 →
      VNexsus.strptimeYMD (VNexsus.mkDate y m d) = none →
      ∃ a, VNexsus.classify_error_type now blocks (VNexsus.mkDate y m d) = .ok a ∧
        a.found_in_blocks = true ∧ a.error_type = "숫자배열오인") := by
  constructor
  · intro now blocks y m d hany hmd
    obtain ⟨i, hfi⟩ := VNexsus.findIdx_of_any hany
    refine ⟨_, VNexsus.classify_found_type now blocks y m d hfi, rfl, ?_⟩
    show (if ((m : Nat) : Int) < 1 ∨ ((m : Nat) : Int) > 12 then "인식오류"
      else if ((d : Nat) : Int) < 1 ∨ ((d : Nat) : Int) > 31 then "인식오류"
      else if ((y : Nat) : Int) > 2026 ∨ ((y : Nat) : Int) < 1950 then "인식오류"
      else (VNexsus.strptimeYMD (VNexsus.mkDate y m d)).elim "숫자배열오인" fun t =>
        if (VNexsus.dateOrdinal t.1 t.2.1 t.2.2 : ℚ) > now then "잘못인식" else "잘못인식") =
      "인식오류"
    by_cases hm : m < 1 ∨ m > 12
    · rw [if_pos (by omega)]
    · rw [if_neg (by omega), if_pos (by omega)]
  · intro now blocks y m d hany hm1 hm12 hd1 hd31 hy1 hy2 hst
    obtain ⟨i, hfi⟩ := VNexsus.findIdx_of_any hany
    refine ⟨_, VNexsus.classify_found_type now blocks y m d hfi, rfl, ?_⟩
    show (if ((m : Nat) : Int) < 1 ∨ ((m : Nat) : Int) > 12 then "인식오류"
      else if ((d : Nat) : Int) < 1 ∨ ((d : Nat) : Int) > 31 then "인식오류"
      else if ((y : Nat) : Int) > 2026 ∨ ((y : Nat) : Int) < 1950 then "인식오류"
      else (VNexsus.strptimeYMD (VNexsus.mkDate y m d)).elim "숫자배열오인" fun t =>
        if (VNexsus.dateOrdinal t.1 t.2.1 t.2.2 : ℚ) > now then "잘못인식" else "잘못인식") =
      "숫자배열오인"
    rw [if_neg (by omega), if_neg (by omega), if_neg (by omega), hst,
      VNexsus.option_elim_none]

/-- Counterexample to claim C5 as stated: `"2024-02-30"` (day 30 in
February, located in a block) is classified `"숫자배열오인"`, not the
recognition-error classification `"인식오류"`. -/
theorem C5_out_of_range_counterexample :
    VNexsus.classify_error_type 0 [⟨0, "x 2024-02-30 y", 0, 0, 0, 0, 0⟩] "2024-02-30" =
      .ok ⟨"2024-02-30", "숫자배열오인", true, 0, some []⟩ ∧
    "숫자배열오인" ≠ "인식오류" := ⟨by decide, by decide⟩

/-- Witness for C5: month 13 yields recognition-error; the
calendar-invalid `2024-02-30` yields the number-array
classification. -/
theorem C5_out_of_range_witness :
    (∃ a, VNexsus.classify_error_type 0 [⟨0, "2024-13-01", 0, 0, 0, 0, 0⟩]
        (VNexsus.mkDate 2024 13 1) = .ok a ∧
      a.found_in_blocks = true ∧ a.error_type = "인식오류") ∧
    (∃ a, VNexsus.classify_error_type 0 [⟨0, "2024-02-30", 0, 0, 0, 0, 0⟩]
        (VNexsus.mkDate 2024 2 30) = .ok a ∧
      a.found_in_blocks = true ∧ a.error_type = "숫자배열오인") :=
  ⟨C5_out_of_range_amended.1 0 _ 2024 13 1 (by decide) (by decide),
    C5_out_of_range_amended.2 0 _ 2024 2 30 (by decide) (by decide) (by decide)
      (by decide) (by decide) (by decide) (by decide) (by decide)⟩

/-- Claim C6: a date none of whose literal renderings (hyphen, dot,
slash, Korean, padded or unpadded) occurs in any block short-circuits:
the classifier returns exactly the `baseline_error` analysis with
`found_in_blocks = false`, raising no exception, independently of the
current time and the block geometry (the result is a constant). -/
theorem C6_not_found_short_circuit :
    ∀ (now : ℚ) (blocks : List VNexsus.Block) (y m d : Nat),
      (∀ p ∈ VNexsus.renderings y m d, ∀ b ∈ blocks,
        VNexsus.occursIn p b.text.data = false) →
      VNexsus.classify_error_type now blocks (VNexsus.mkDate y m d) =
        .ok ⟨VNexsus.mkDate y m d, "baseline_error", false, -1, none⟩ :=
  fun now blocks y m d h => VNexsus.classify_not_found now blocks y m d h

/-- Witness for C6 on a single block `"hello"` and the date
2024-05-01. -/
theorem C6_not_found_short_circuit_witness :
    VNexsus.classify_error_type 0 [⟨0, "hello", 0, 0, 0, 0, 0⟩] (VNexsus.mkDate 2024 5 1) =
      .ok ⟨VNexsus.mkDate 2024 5 1, "baseline_error", false, -1, none⟩ :=
  C6_not_found_short_circuit 0 [⟨0, "hello", 0, 0, 0, 0, 0⟩] 2024 5 1 (by decide)

/-- Claim C10: the validator `is_impossible_date` places no bound on
the year — every calendar-valid date of any 4-digit year passes,
including 1000-01-01 and 9999-01-01 — while year screening happens
only ad hoc elsewhere: the error classifier flags a located date with
in-range month/day but year outside [1950, 2026] as recognition-error,
and the chronological-sequence builder keeps only dates whose leading
component parses to a year in [1900, 2100]. -/
theorem C10_validator_no_year_bound :
    (∀ y m d : Nat, 1000 ≤ y → y ≤ 9999 → 1 ≤ m → m ≤ 12 → 1 ≤ d →
      d ≤ VNexsus.daysInMonth y m →
      VNexsus.is_impossible_date (VNexsus.mkDate y m d) = false) ∧
    VNexsus.is_impossible_date "1000-01-01" = false ∧
    VNexsus.is_impossible_date "9999-01-01" = false ∧
    (∀ (now : ℚ) (blocks : List VNexsus.Block) (y m d : Nat),
      (blocks.any fun b => VNexsus.occursIn (VNexsus.mkDate y m d).data b.text.data) = true →
      1 ≤ m → m ≤ 12 → 1 ≤ d → d ≤ 31 → (y < 1950 ∨ y > 2026) →
      ∃ a, VNexsus.classify_error_type now blocks (VNexsus.mkDate y m d) = .ok a ∧
        a.error_type = "인식오류") ∧
    (∀ (blocks : List VNexsus.Block) (e : VNexsus.SeqEntry),
      e ∈ VNexsus.analyze_date_sequence_dates blocks →
      ∃ yr : Int, VNexsus.pyInt? ((VNexsus.pySplit '-' e.date.data).headI) = some yr ∧
        1900 ≤ yr ∧ yr ≤ 2100) := by
  refine ⟨?_, by decide, by decide, ?_, ?_⟩
  · intro y m d _ _ hm1 hm12 hd1 hdim
    exact VNexsus.is_impossible_mkDate_valid hm1 hm12 hd1 hdim
  · intro now blocks y m d hany hm1 hm12 hd1 hd31 hyr
    obtain ⟨i, hfi⟩ := VNexsus.findIdx_of_any hany
    refine ⟨_, VNexsus.classify_found_type now blocks y m d hfi, ?_⟩
    show (if ((m : Nat) : Int) < 1 ∨ ((m : Nat) : Int) > 12 then "인식오류"
      else if ((d : Nat) : Int) < 1 ∨ ((d : Nat) : Int) > 31 then "인식오류"
      else if ((y : Nat) : Int) > 2026 ∨ ((y : Nat) : Int) < 1950 then "인식오류"
      else (VNexsus.strptimeYMD (VNexsus.mkDate y m d)).elim "숫자배열오인" fun t =>
        if (VNexsus.dateOrdinal t.1 t.2.1 t.2.2 : ℚ) > now then "잘못인식" else "잘못인식") =
      "인식오류"
    rw [if_neg (by omega), if_neg (by omega), if_pos (by omega)]
  · intro blocks e he
    exact VNexsus.seq_dates_year_range he

/-- Witness for C10: the leap day of year 2024 and the extreme years
1000 and 9999 pass the validator; year 1000 triggers the classifier's
ad hoc screen; a sequence entry built from a block carries a year in
range. -/
theorem C10_validator_no_year_bound_witness :
    VNexsus.is_impossible_date (VNexsus.mkDate 2024 2 29) = false ∧
    (∃ a, VNexsus.classify_error_type 0 [⟨0, "1000-01-01", 0, 0, 0, 0, 0⟩]
        (VNexsus.mkDate 1000 1 1) = .ok a ∧ a.error_type = "인식오류") ∧
    (∃ yr : Int, VNexsus.pyInt?
        ((VNexsus.pySplit '-' (VNexsus.SeqEntry.date ⟨0, "2024-05-01", 0, 0⟩).data).headI) =
          some yr ∧ 1900 ≤ yr ∧ yr ≤ 2100) :=
  ⟨C10_validator_no_year_bound.1 2024 2 29 (by decide) (by decide) (by decide)
      (by decide) (by decide) (by decide),
    C10_validator_no_year_bound.2.2.2.1 0 [⟨0, "1000-01-01", 0, 0, 0, 0, 0⟩] 1000 1 1
      (by decide) (by decide) (by decide) (by decide) (by decide) (by decide),
    C10_validator_no_year_bound.2.2.2.2 [⟨0, "2024-05-01", 0, 0, 0, 0, 0⟩]
      ⟨0, "2024-05-01", 0, 0⟩ (by decide)⟩
